import Mathlib

/-!
Verification of the integration driver in src/iterator.py
(KyleCH/MagCloakParticleSim).

The driver `iterator(f, h, method, t, y, nmax, exitcond, trackint)` first
builds a one-step advance operation `step = setstep(f, method, h)` (the
external Step Provider, out of scope here) and then runs one of four loop
shapes selected by `trackint` and `exitcond`.  The embedding below takes the
advance operation `step` directly, models times as rationals, the state as an
abstract type `α`, the pair of numpy arrays `t_arr` / `y_arr` (which are
written and trimmed in lockstep at identical indices) as a single list of
optional samples (`none` = a cell of `np.empty` that was never written), and
Python runtime failures as explicit error values.  Every definition is
annotated with the source lines it translates.
-/

/-- Runtime outcomes of the Python driver other than a normal return.
`configExit` is the final `else` branch of `iterator` (lines 142-149): the
error message about an invalid tracking interval followed by `raise
SystemExit`.  `typeError` is the `TypeError` Python raises inside the
`trackint > 1` branch when `trackint` is not an integer (`np.empty` /
`range` reject a float before any step is taken).  `nameError` is the
unbound-local-variable failure at `t_arr[i]` when the tracked loop body never
ran, so `i` was never bound.  `indexError` is an out-of-bounds store into the
tracking arrays. -/
inductive PyErr where
  | configExit
  | typeError
  | nameError
  | indexError
deriving DecidableEq

/-- Return value of the driver: `final t y` for the untracked modes
(line 56 `return t, y`), `traj samples` for the tracked modes
(lines 86 and 140 `return t_arr, y_arr`); a `none` entry is an allocated
array cell that was never assigned. -/
inductive IterResult (α : Type) where
  | final : ℚ × α → IterResult α
  | traj : List (Option (ℚ × α)) → IterResult α
deriving DecidableEq

/-- Observational instrumentation of one run, not part of the source:
`steps` counts applications of the advance operation, `evals` lists, in
order, the samples on which the exit condition was evaluated, and `tailRan`
records whether the trailing partial-interval block (lines 112-114 and
136-138) executed. -/
structure Trace (α : Type) where
  steps : ℕ
  evals : List (ℚ × α)
  tailRan : Bool
deriving DecidableEq

/-- The loop `for i in range(n): t, y = step(t, y)` (lines 46-47): n
sequential applications of the advance operation, first application
innermost. -/
def stepIter (step : ℚ → α → ℚ × α) : ℕ → ℚ × α → ℚ × α
  | 0, s => s
  | n + 1, s => stepIter step n (step s.1 s.2)

/-- Spec-side reading of the same quantity: the n-fold composition of the
advance operation with itself, last application outermost.  Used in claim
statements; `applyN_eq_stepIter` proves it coincides with the loop. -/
def applyN (step : ℚ → α → ℚ × α) : ℕ → ℚ × α → ℚ × α
  | 0, s => s
  | n + 1, s => let p := applyN step n s; step p.1 p.2

/-- The default initial state `y=np.zeros(6)` of line 9: `np.zeros(n)` is a
vector of n zeros. -/
def np_zeros (n : ℕ) : List ℚ := List.replicate n 0

/-- The default argument object of line 9, `np.zeros(6)`, evaluated once
when the `def iterator` line executes and shared by every call that omits
`y`; modelled as a single module-level constant. -/
def iterator_default_y : List ℚ := np_zeros 6

/-- A store `arr[i] = v` into a numpy array: fails with `IndexError` when
the index is outside the allocated length. -/
def setStrict (l : List β) (i : ℕ) (v : β) : Option (List β) :=
  if i < l.length then some (l.set i v) else none

/-- The call `np.delete(arr, range(lo, hi), 0)` (lines 83-84 and 127-128):
removes the entries whose index lies in [lo, hi).  Indices of the range that
fall outside the array are ignored, which is what the numpy releases
contemporary with this repository did (they raise only since numpy 1.19). -/
def npDelete (l : List β) (lo hi : ℕ) : List β :=
  ((l.enum.filter (fun p => decide (p.1 < lo) || decide (hi ≤ p.1))).map Prod.snd)

/-- The `trackint == 1`, no-exit loop body (lines 70-71): entries 1..n of the
tracking arrays, each obtained by one application of the advance operation to
the previously written entry (the source re-reads index i-1, which always
holds the sample written on the previous iteration; the embedding carries
that sample directly). -/
def fillEvery (step : ℚ → α → ℚ × α) : ℕ → ℚ × α → List (Option (ℚ × α))
  | 0, _ => []
  | n + 1, s =>
    let s1 := step s.1 s.2
    some s1 :: fillEvery step n s1

/-- The `trackint == 1`, with-exit loop (lines 75-85): produces the entries
written after index 0 together with the number of advance applications.  On
the first sample satisfying the exit condition the loop breaks; the
`np.delete` of lines 83-84 removes exactly the never-written tail indices
i+1..nmax of the length-(nmax+1) arrays, so the returned entries are
precisely the written ones. -/
def fillEveryExit (step : ℚ → α → ℚ × α) (ec : ℚ → α → Bool) :
    ℕ → ℚ × α → List (Option (ℚ × α)) × ℕ
  | 0, _ => ([], 0)
  | n + 1, s =>
    let s1 := step s.1 s.2
    if ec s1.1 s1.2 then ([some s1], 1)
    else
      let out := fillEveryExit step ec n s1
      (some s1 :: out.1, out.2 + 1)

/-- The untracked, with-exit loop (lines 51-54): returns the last computed
sample, the number of advance applications, and the samples on which the
exit condition was evaluated (once per step, on the freshly produced
sample). -/
def plainExitLoop (step : ℚ → α → ℚ × α) (ec : ℚ → α → Bool) :
    ℕ → ℚ × α → (ℚ × α) × ℕ × List (ℚ × α)
  | 0, s => (s, 0, [])
  | n + 1, s =>
    let s1 := step s.1 s.2
    if ec s1.1 s1.2 then (s1, 1, [s1])
    else
      let out := plainExitLoop step ec n s1
      (out.1, out.2.1 + 1, s1 :: out.2.2)

/-- The `trackint > 1`, no-exit main loop `for i in range(1, ntrack)`
(lines 103-106): r remaining iterations, current write index i; each
iteration applies the advance operation `trackint` times (the j-loop of
lines 104-105) and stores the resulting sample at index i.  These writes are
in bounds by construction (i stays below ntrack < length), so a plain store
is exact.  Returns the updated array and the current sample. -/
def mode4FillGo (step : ℚ → α → ℚ × α) (T : ℕ) :
    ℕ → ℕ → List (Option (ℚ × α)) → ℚ × α → List (Option (ℚ × α)) × (ℚ × α)
  | 0, _, arr, s => (arr, s)
  | r + 1, i, arr, s =>
    let s1 := stepIter step T s
    mode4FillGo step T r (i + 1) (arr.set i (some s1)) s1

/-- The `trackint > 1`, no-exit branch (lines 90-114).  Source:
`ntrack = 1 + (nmax+trackint-1)//trackint`; arrays of length ntrack+1 with
index 0 holding the initial sample and the other cells unwritten; the main
loop runs i = 1..ntrack-1; the trailing block then applies the advance
operation `nmax - (ntrack-2)*trackint` more times (a Python int expression,
hence computed in ℤ; `range` of a negative amount is empty, hence `toNat`)
and stores the result at the leaked loop index i = ntrack-1, overwriting the
sample the loop just wrote there.  When the loop body never ran (ntrack < 2,
i.e. nmax = 0) the name i is unbound and line 114 fails with a NameError,
after the trailing steps already executed. -/
def mode4NoExit (step : ℚ → α → ℚ × α) (t : ℚ) (y : α) (nmax T : ℕ) :
    Except PyErr (IterResult α) × Trace α :=
  let ntrack := 1 + (nmax + T - 1) / T
  let arr0 := (List.replicate (ntrack + 1) (none : Option (ℚ × α))).set 0 (some (t, y))
  let out := mode4FillGo step T (ntrack - 1) 1 arr0 (t, y)
  let tailN := ((nmax : ℤ) - ((ntrack : ℤ) - 2) * (T : ℤ)).toNat
  let sFin := stepIter step tailN out.2
  if 2 ≤ ntrack then
    (.ok (.traj (out.1.set (ntrack - 1) (some sFin))),
      ⟨(ntrack - 1) * T + tailN, [], true⟩)
  else
    (.error .nameError, ⟨(ntrack - 1) * T + tailN, [], true⟩)

/-- The `trackint > 1`, with-exit loop `for i in range(1, nmax+1)` with its
`else` clause (lines 118-138): r remaining iterations, current write index
i.  Each iteration applies the advance operation `trackint` times, stores
the sample at index i (IndexError when i is outside the arrays, which are
only ntrack+1 long), then evaluates the exit condition on the stored sample;
on satisfaction it trims with `np.delete(.., range(i+1, nmax+1), 0)` and
breaks.  When the loop exhausts its range the `for/else` clause runs the
trailing block: `nmax - (ntrack-2)*trackint` further applications and a
store at the leaked index i = nmax (NameError when nmax = 0, after those
trailing steps).  Returns the result together with the advance count, the
evaluated samples in order, and whether the trailing block ran. -/
def mode4ExitGo (step : ℚ → α → ℚ × α) (ec : ℚ → α → Bool) (T nmax : ℕ) :
    ℕ → ℕ → List (Option (ℚ × α)) → ℚ × α →
    Except PyErr (IterResult α) × ℕ × List (ℚ × α) × Bool
  | 0, _, arr, s =>
    let ntrack := 1 + (nmax + T - 1) / T
    let tailN := ((nmax : ℤ) - ((ntrack : ℤ) - 2) * (T : ℤ)).toNat
    let sFin := stepIter step tailN s
    if 1 ≤ nmax then
      match setStrict arr nmax (some sFin) with
      | some arrF => (.ok (.traj arrF), tailN, [], true)
      | none => (.error .indexError, tailN, [], true)
    else (.error .nameError, tailN, [], true)
  | r + 1, i, arr, s =>
    let s1 := stepIter step T s
    match setStrict arr i (some s1) with
    | none => (.error .indexError, T, [], false)
    | some arr1 =>
      if ec s1.1 s1.2 then
        (.ok (.traj (npDelete arr1 (i + 1) (nmax + 1))), T, [s1], false)
      else
        let out := mode4ExitGo step ec T nmax r (i + 1) arr1 s1
        (out.1, T + out.2.1, s1 :: out.2.2.1, out.2.2.2)

/-- The `trackint > 1`, with-exit branch (lines 90-99 and 117-140): array
allocation of length ntrack+1 with the initial sample at index 0, then the
loop of `mode4ExitGo` starting at index 1 with nmax iterations. -/
def mode4Exit (step : ℚ → α → ℚ × α) (ec : ℚ → α → Bool) (t : ℚ) (y : α)
    (nmax T : ℕ) : Except PyErr (IterResult α) × Trace α :=
  let ntrack := 1 + (nmax + T - 1) / T
  let arr0 := (List.replicate (ntrack + 1) (none : Option (ℚ × α))).set 0 (some (t, y))
  let out := mode4ExitGo step ec T nmax nmax 1 arr0 (t, y)
  (out.1, ⟨out.2.1, out.2.2.1, out.2.2.2⟩)

/-- The driver `iterator` of src/iterator.py, lines 9-149, with the advance
operation `step = setstep(f, method, h)` passed in directly (the Step
Provider is out of scope).  Branching follows the source exactly:
`trackint is None` (line 42), `trackint == 1` (line 59), `trackint > 1`
(line 90), otherwise the error report and SystemExit (lines 142-149).
The tracking interval is a Python number, modelled as a rational; inside the
`trackint > 1` branch a non-integer value makes `np.empty(ntrack+1)` and
`range(trackint)` raise a TypeError before any advance application, which
the embedding reports as `typeError` at branch entry. -/
def iterator (step : ℚ → α → ℚ × α) (t : ℚ) (y : α) (nmax : ℕ)
    (exitcond : Option (ℚ → α → Bool)) (trackint : Option ℚ) :
    Except PyErr (IterResult α) × Trace α :=
  match trackint with
  | none =>
    match exitcond with
    | none => (.ok (.final (stepIter step nmax (t, y))), ⟨nmax, [], false⟩)
    | some ec =>
      let out := plainExitLoop step ec nmax (t, y)
      (.ok (.final out.1), ⟨out.2.1, out.2.2, false⟩)
  | some v =>
    if v = 1 then
      match exitcond with
      | none =>
        (.ok (.traj (some (t, y) :: fillEvery step nmax (t, y))), ⟨nmax, [], false⟩)
      | some ec =>
        let out := fillEveryExit step ec nmax (t, y)
        (.ok (.traj (some (t, y) :: out.1)), ⟨out.2, out.1.filterMap id, false⟩)
    else if 1 < v then
      if v.den = 1 then
        let T := v.num.toNat
        match exitcond with
        | none => mode4NoExit step t y nmax T
        | some ec => mode4Exit step ec t y nmax T
      else (.error .typeError, ⟨0, [], false⟩)
    else (.error .configExit, ⟨0, [], false⟩)

/-- A call of `iterator` that omits the initial state argument: it uses the
module-level default object of line 9. -/
def iteratorNoY (step : ℚ → List ℚ → ℚ × List ℚ) (t : ℚ) (nmax : ℕ)
    (exitcond : Option (ℚ → List ℚ → Bool)) (trackint : Option ℚ) :
    Except PyErr (IterResult (List ℚ)) × Trace (List ℚ) :=
  iterator step t iterator_default_y nmax exitcond trackint

/-- The samples on which the every-N loop evaluates the exit condition when
it starts from s: the j-th evaluated sample is the advance operation applied
(j+1)*T times to s (tracked samples only, never the initial sample, never a
mid-interval state). -/
def evalSchedule (step : ℚ → α → ℚ × α) (T : ℕ) (s : ℚ × α) (m : ℕ) :
    List (ℚ × α) :=
  (List.range m).map (fun j => applyN step ((j + 1) * T) s)

/-- A concrete counting advance operation for witnesses: the time is left
unchanged and the integer state advances by one per application, so the
state equals the number of applications so far. -/
def cstep : ℚ → ℤ → ℚ × ℤ := fun t y => (t, y + 1)

/-- The rational 5/2, written as an explicit fraction in lowest terms: the
Python literal 2.5 used as an invalid (non-integer) tracking interval. -/
def qTwoHalf : ℚ := ⟨5, 2, by norm_num, by norm_num⟩

/-- An exit condition that is always satisfied. -/
def ecAlways : ℚ → ℤ → Bool := fun _ _ => true

/-- An exit condition on the counting state: satisfied once at least four
steps have been taken. -/
def ecGe4 : ℚ → ℤ → Bool := fun _ y => decide (4 ≤ y)

theorem stepIter_succ_apply (step : ℚ → α → ℚ × α) :
    ∀ (n : ℕ) (s : ℚ × α),
      stepIter step (n + 1) s =
        step (stepIter step n s).1 (stepIter step n s).2 := by
  intro n
  induction n with
  | zero => intro s; rfl
  | succ n ih => intro s; exact ih (step s.1 s.2)

theorem applyN_eq_stepIter (step : ℚ → α → ℚ × α) :
    ∀ (n : ℕ) (s : ℚ × α), applyN step n s = stepIter step n s := by
  intro n
  induction n with
  | zero => intro s; rfl
  | succ n ih =>
    intro s
    show step (applyN step n s).1 (applyN step n s).2 = stepIter step (n + 1) s
    rw [ih s]
    exact (stepIter_succ_apply step n s).symm

theorem applyN_add (step : ℚ → α → ℚ × α) :
    ∀ (a b : ℕ) (s : ℚ × α),
      applyN step (a + b) s = applyN step a (applyN step b s) := by
  intro a
  induction a with
  | zero => intro b s; rw [Nat.zero_add]; rfl
  | succ a ih =>
    intro b s
    rw [show a + 1 + b = (a + b) + 1 from by omega]
    have h1 : applyN step ((a + b) + 1) s =
        step (applyN step (a + b) s).1 (applyN step (a + b) s).2 := rfl
    have h2 : applyN step (a + 1) (applyN step b s) =
        step (applyN step a (applyN step b s)).1
          (applyN step a (applyN step b s)).2 := rfl
    rw [h1, h2, ih b s]

theorem evalSchedule_cons (step : ℚ → α → ℚ × α) (T : ℕ) (s : ℚ × α) (m : ℕ) :
    evalSchedule step T s (m + 1) =
      stepIter step T s :: evalSchedule step T (stepIter step T s) m := by
  unfold evalSchedule
  rw [List.range_succ_eq_map, List.map_cons, List.map_map]
  refine congrArg₂ List.cons ?_ ?_
  · show applyN step ((0 + 1) * T) s = stepIter step T s
    rw [show (0 + 1) * T = T from by omega, applyN_eq_stepIter]
  · refine List.map_congr_left ?_
    intro j _
    show applyN step ((j + 1 + 1) * T) s =
      applyN step ((j + 1) * T) (stepIter step T s)
    rw [show (j + 1 + 1) * T = (j + 1) * T + T from by ring,
      applyN_add step ((j + 1) * T) T s, applyN_eq_stepIter step T s]

theorem mode4ExitGo_evals (step : ℚ → α → ℚ × α) (ec : ℚ → α → Bool)
    (T nmax : ℕ) :
    ∀ (r i : ℕ) (arr : List (Option (ℚ × α))) (s : ℚ × α),
      ∃ m, (mode4ExitGo step ec T nmax r i arr s).2.2.1 = evalSchedule step T s m := by
  intro r
  induction r with
  | zero =>
    intro i arr s
    refine ⟨0, ?_⟩
    simp only [mode4ExitGo, evalSchedule, List.range_zero, List.map_nil]
    split
    · split <;> rfl
    · rfl
  | succ r ih =>
    intro i arr s
    simp only [mode4ExitGo]
    cases hset : setStrict arr i (some (stepIter step T s)) with
    | none => exact ⟨0, by simp [evalSchedule]⟩
    | some arr1 =>
      by_cases hec : ec (stepIter step T s).1 (stepIter step T s).2 = true
      · refine ⟨1, ?_⟩
        simp only [hec, if_true]
        show [stepIter step T s] = evalSchedule step T s 1
        simp [evalSchedule, List.range_succ, applyN_eq_stepIter]
      · obtain ⟨m, hm⟩ := ih (i + 1) arr1 (stepIter step T s)
        refine ⟨m + 1, ?_⟩
        simp only [hec, if_false, Bool.false_eq_true]
        show stepIter step T s ::
          (mode4ExitGo step ec T nmax r (i + 1) arr1 (stepIter step T s)).2.2.1 =
          evalSchedule step T s (m + 1)
        rw [hm, evalSchedule_cons]

theorem mode4ExitGo_tail (step : ℚ → α → ℚ × α) (ec : ℚ → α → Bool)
    (T nmax : ℕ) :
    ∀ (r i : ℕ) (arr : List (Option (ℚ × α))) (s : ℚ × α),
      ((mode4ExitGo step ec T nmax r i arr s).2.2.2 = true ↔
        ((mode4ExitGo step ec T nmax r i arr s).2.2.1.length = r
          ∧ ∀ e ∈ (mode4ExitGo step ec T nmax r i arr s).2.2.1,
              ec e.1 e.2 = false)) := by
  intro r
  induction r with
  | zero =>
    intro i arr s
    simp only [mode4ExitGo]
    split
    · split <;> simp
    · simp
  | succ r ih =>
    intro i arr s
    simp only [mode4ExitGo]
    cases hset : setStrict arr i (some (stepIter step T s)) with
    | none => simp
    | some arr1 =>
      by_cases hec : ec (stepIter step T s).1 (stepIter step T s).2 = true
      · simp [hec]
      · rw [Bool.not_eq_true] at hec
        simp only [hec, Bool.false_eq_true, if_false]
        show (mode4ExitGo step ec T nmax r (i + 1) arr1 (stepIter step T s)).2.2.2 = true ↔ _
        rw [ih (i + 1) arr1 (stepIter step T s)]
        constructor
        · rintro ⟨h1, h2⟩
          refine ⟨by simp [h1], ?_⟩
          intro e he
          rcases List.mem_cons.mp he with h | h
          · rw [h]; exact hec
          · exact h2 e h
        · rintro ⟨h1, h2⟩
          refine ⟨by simpa using h1, ?_⟩
          intro e he
          exact h2 e (List.mem_cons_of_mem _ he)

theorem mode4ExitGo_fired (step : ℚ → α → ℚ × α) (ec : ℚ → α → Bool)
    (T nmax : ℕ) :
    ∀ (r i : ℕ) (arr : List (Option (ℚ × α))) (s : ℚ × α),
      (∃ e ∈ (mode4ExitGo step ec T nmax r i arr s).2.2.1, ec e.1 e.2 = true) →
      (mode4ExitGo step ec T nmax r i arr s).2.2.2 = false
      ∧ (mode4ExitGo step ec T nmax r i arr s).2.1 =
          (mode4ExitGo step ec T nmax r i arr s).2.2.1.length * T
      ∧ (∀ e ∈ (mode4ExitGo step ec T nmax r i arr s).2.2.1.dropLast,
          ec e.1 e.2 = false)
      ∧ (∃ e, (mode4ExitGo step ec T nmax r i arr s).2.2.1.getLast? = some e
          ∧ ec e.1 e.2 = true)
      ∧ (∃ l, (mode4ExitGo step ec T nmax r i arr s).1 =
          Except.ok (IterResult.traj l)) := by
  intro r
  induction r with
  | zero =>
    intro i arr s hex
    exfalso
    revert hex
    simp only [mode4ExitGo]
    split
    · split <;> simp
    · simp
  | succ r ih =>
    intro i arr s
    simp only [mode4ExitGo]
    cases hset : setStrict arr i (some (stepIter step T s)) with
    | none => simp
    | some arr1 =>
      by_cases hec : ec (stepIter step T s).1 (stepIter step T s).2 = true
      · intro _
        simp [hec]
      · rw [Bool.not_eq_true] at hec
        simp only [hec, Bool.false_eq_true, if_false]
        intro hex
        have hex1 : ∃ e ∈ (mode4ExitGo step ec T nmax r (i + 1) arr1
            (stepIter step T s)).2.2.1, ec e.1 e.2 = true := by
          obtain ⟨e, he, hte⟩ := hex
          rcases List.mem_cons.mp he with h | h
          · rw [h] at hte; rw [hec] at hte; cases hte
          · exact ⟨e, h, hte⟩
        obtain ⟨h1, h2, h3, h4, h5⟩ := ih (i + 1) arr1 (stepIter step T s) hex1
        have hne : (mode4ExitGo step ec T nmax r (i + 1) arr1
            (stepIter step T s)).2.2.1 ≠ [] := by
          obtain ⟨e, he, _⟩ := hex1
          exact List.ne_nil_of_mem he
        refine ⟨h1, ?_, ?_, ?_, h5⟩
        · show T + (mode4ExitGo step ec T nmax r (i + 1) arr1
            (stepIter step T s)).2.1 = _
          rw [h2]
          simp [List.length_cons]
          ring
        · intro e he
          rw [List.dropLast_cons_of_ne_nil hne] at he
          rcases List.mem_cons.mp he with h | h
          · rw [h]; exact hec
          · exact h3 e h
        · obtain ⟨e, hle, hte⟩ := h4
          refine ⟨e, ?_, hte⟩
          show (stepIter step T s :: (mode4ExitGo step ec T nmax r (i + 1) arr1
            (stepIter step T s)).2.2.1).getLast? = some e
          obtain ⟨x, xs, hxx⟩ := List.exists_cons_of_ne_nil hne
          rw [hxx] at hle
          rw [hxx, List.getLast?_cons_cons]
          exact hle

theorem fillEvery_eq (step : ℚ → α → ℚ × α) :
    ∀ (n : ℕ) (s : ℚ × α),
      fillEvery step n s =
        (List.range n).map (fun j => some (applyN step (j + 1) s)) := by
  intro n
  induction n with
  | zero => intro s; rfl
  | succ n ih =>
    intro s
    show some (step s.1 s.2) :: fillEvery step n (step s.1 s.2) = _
    rw [ih (step s.1 s.2), List.range_succ_eq_map, List.map_cons, List.map_map]
    refine congrArg₂ List.cons rfl ?_
    refine List.map_congr_left ?_
    intro j _
    show some (applyN step (j + 1) (step s.1 s.2)) = some (applyN step (j + 1 + 1) s)
    rw [applyN_add step (j + 1) 1 s]
    rfl

theorem iterator_everyN_exit_eq (step : ℚ → α → ℚ × α) (ec : ℚ → α → Bool)
    (t : ℚ) (y : α) (nmax T : ℕ) (hT : 2 ≤ T) :
    iterator step t y nmax (some ec) (some (T : ℚ)) =
      mode4Exit step ec t y nmax T := by
  have h1 : ¬((T : ℚ) = 1) := by rw [Nat.cast_eq_one]; omega
  have h2 : (1 : ℚ) < (T : ℚ) := by exact_mod_cast (by omega : 1 < T)
  have h3 : ((T : ℕ) : ℚ).den = 1 := Rat.den_natCast T
  have h4 : ((T : ℕ) : ℚ).num.toNat = T := by
    rw [Rat.num_natCast]; exact Int.toNat_natCast T
  simp only [iterator]
  rw [if_neg h1, if_pos h2, if_pos h3, h4]

/-- C7: with tracking disabled and no exit condition, the driver applies the
advance operation exactly max_steps times sequentially (the trace counts
exactly n applications) and returns exactly the final (t, y) pair, which
equals the n-fold composition of the advance operation starting from the
initial sample. -/
theorem iterator_no_tracking_spec (step : ℚ → α → ℚ × α) (t : ℚ) (y : α)
    (n : ℕ) :
    iterator step t y n none none =
      (.ok (.final (applyN step n (t, y))), ⟨n, [], false⟩) := by
  simp only [iterator]
  rw [applyN_eq_stepIter]

/-- C6: with track_interval = 1 and no exit condition, the returned
trajectory has exactly n + 1 samples, index 0 equals the initial sample, and
the sample at index i equals the advance operation applied i times to the
initial sample (the trajectory is exactly the list of iterates, and the
trace counts exactly n applications). -/
theorem iterator_track_every_step_spec (step : ℚ → α → ℚ × α) (t : ℚ)
    (y : α) (n : ℕ) :
    iterator step t y n none (some 1) =
      (.ok (.traj ((List.range (n + 1)).map (fun i => some (applyN step i (t, y))))),
        ⟨n, [], false⟩) := by
  simp only [iterator]
  rw [if_pos trivial]
  refine congrArg₂ Prod.mk ?_ rfl
  refine congrArg Except.ok (congrArg IterResult.traj ?_)
  rw [fillEvery_eq, List.range_succ_eq_map, List.map_cons, List.map_map]
  refine congrArg₂ List.cons rfl ?_
  refine List.map_congr_left ?_
  intro j _
  rfl

/-- C8: the driver is deterministic: two runs with equal inputs and the same
deterministic advance operation return identical results in every mode,
including every entry of the returned trajectory; the embedding of the
driver is a pure function of its arguments, introducing no randomness. -/
theorem iterator_deterministic (step step2 : ℚ → α → ℚ × α) (t t2 : ℚ)
    (y y2 : α) (nmax nmax2 : ℕ) (ec ec2 : Option (ℚ → α → Bool))
    (ti ti2 : Option ℚ) (hstep : step = step2) (ht : t = t2) (hy : y = y2)
    (hn : nmax = nmax2) (he : ec = ec2) (hti : ti = ti2) :
    iterator step t y nmax ec ti = iterator step2 t2 y2 nmax2 ec2 ti2 := by
  subst hstep ht hy hn he hti
  rfl

/-- Witness for C8 at concrete inputs: two identical runs of the counting
advance operation coincide. -/
theorem iterator_deterministic_witness :
    cstep = cstep ∧
      iterator cstep 0 (0 : ℤ) 3 none (some 1) =
        iterator cstep 0 (0 : ℤ) 3 none (some 1) :=
  ⟨rfl, iterator_deterministic cstep cstep 0 0 0 0 3 3 none none (some 1)
    (some 1) rfl rfl rfl rfl rfl rfl⟩

/-- C10: a call that omits the initial state uses the module-level default
created at function definition time, a 6-component zero vector, identical
for every such call since all of them use the same constant. -/
theorem iterator_default_y_spec :
    iterator_default_y = List.replicate 6 0
    ∧ iterator_default_y.length = 6
    ∧ iterator_default_y.all (fun x => x == 0) = true
    ∧ ∀ (step : ℚ → List ℚ → ℚ × List ℚ) (t : ℚ) (nmax : ℕ)
        (ec : Option (ℚ → List ℚ → Bool)) (ti : Option ℚ),
        iteratorNoY step t nmax ec ti =
          iterator step t iterator_default_y nmax ec ti :=
  ⟨rfl, rfl, rfl, fun _ _ _ _ _ => rfl⟩

/-- C1 (code bug evidence): at max_steps = 10, track_interval = 5, no exit
condition, the code does not return 3 samples after exactly 10 advance
applications as the spec requires: it performs 15 applications (the main
loop already covers all 10 steps and the trailing block adds 5 more),
overwrites the 10-step sample at index 2 with the 15-step sample, and
returns arrays of length 4 whose last cell was never written. -/
theorem iterator_everyN_noexit_eval :
    iterator cstep 0 (0 : ℤ) 10 none (some 5) =
      (.ok (.traj [some (0, 0), some (0, 5), some (0, 15), none]),
        ⟨15, [], true⟩) := rfl

/-- C2 (code bug evidence): at max_steps = 1, track_interval = 2, with an
exit condition satisfied at the first tracked sample (k = 1), the returned
trajectory has length 3 with a never-written final cell instead of the
claimed k + 1 = 2: the deletion range is bounded by nmax + 1 = 2 while the
arrays have length ntrack + 1 = 3, so nothing is trimmed. -/
theorem iterator_everyN_exit_trim_eval :
    iterator cstep 0 (0 : ℤ) 1 (some ecAlways) (some 2) =
      (.ok (.traj [some (0, 0), some (0, 2), none]), ⟨2, [(0, 2)], false⟩) := rfl

/-- C3 (code bug evidence): max_steps = 0 returns the initial sample
unchanged with zero advance applications when tracking is disabled and when
track_interval = 1, but with track_interval = 2 the code applies the advance
operation twice (the trailing block runs range(0 - (1-2)*2)) and then fails
with an unbound loop variable at the final store. -/
theorem iterator_degenerate_modes_eval :
    iterator cstep 0 (0 : ℤ) 0 none none =
      (.ok (.final (0, 0)), ⟨0, [], false⟩)
    ∧ iterator cstep 0 (0 : ℤ) 0 none (some 1) =
      (.ok (.traj [some (0, 0)]), ⟨0, [], false⟩)
    ∧ iterator cstep 0 (0 : ℤ) 0 none (some 2) =
      (.error .nameError, ⟨2, [], true⟩) :=
  ⟨rfl, rfl, rfl⟩

/-- C5 (code bug evidence): track_interval values 0 and -3 do reach the
invalid-interval report before any advance application, but the non-integer
value 5/2 does not: the comparison 5/2 > 1 routes it into the tracking
branch, which fails with a TypeError (still before any advance application)
instead of the configuration-error report. -/
theorem iterator_invalid_trackint_eval :
    iterator cstep 0 (0 : ℤ) 3 none (some 0) =
      (.error .configExit, ⟨0, [], false⟩)
    ∧ iterator cstep 0 (0 : ℤ) 3 none (some (-3)) =
      (.error .configExit, ⟨0, [], false⟩)
    ∧ iterator cstep 0 (0 : ℤ) 3 none (some (5 / 2 : ℚ)) =
      (.error .typeError, ⟨0, [], false⟩) := by
  refine ⟨rfl, rfl, ?_⟩
  rw [show (5 : ℚ) / 2 = qTwoHalf from by simpa using Rat.num_div_den qTwoHalf]
  rfl

/-- C4: in the every-N tracking mode (track_interval = T > 1) with an exit
condition, the exit condition is evaluated exactly once per tracked sample
and never on the initial sample or after an individual sub-step (the j-th
evaluated sample is the advance operation applied (j+1)*T times to the
initial sample); if some evaluated sample satisfies it, all earlier
evaluations were unsatisfied, the run returns a trajectory and stops with
exactly (number of evaluations)*T advance applications, before the trailing
partial-interval block; and the trailing block executes exactly when the
loop completed all nmax iterations with the condition never satisfied. -/
theorem iterator_everyN_exit_discipline (step : ℚ → α → ℚ × α)
    (ec : ℚ → α → Bool) (t : ℚ) (y : α) (nmax T : ℕ) (hT : 2 ≤ T)
    (res : Except PyErr (IterResult α)) (tr : Trace α)
    (hrun : iterator step t y nmax (some ec) (some (T : ℚ)) = (res, tr)) :
    (∃ m, tr.evals = evalSchedule step T (t, y) m)
    ∧ ((∃ e ∈ tr.evals, ec e.1 e.2 = true) →
        tr.tailRan = false
        ∧ tr.steps = tr.evals.length * T
        ∧ (∀ e ∈ tr.evals.dropLast, ec e.1 e.2 = false)
        ∧ (∃ e, tr.evals.getLast? = some e ∧ ec e.1 e.2 = true)
        ∧ (∃ l, res = Except.ok (IterResult.traj l)))
    ∧ (tr.tailRan = true ↔
        (tr.evals.length = nmax ∧ ∀ e ∈ tr.evals, ec e.1 e.2 = false)) := by
  rw [iterator_everyN_exit_eq step ec t y nmax T hT] at hrun
  simp only [mode4Exit] at hrun
  injection hrun with hres htr
  subst hres
  subst htr
  refine ⟨?_, ?_, ?_⟩
  · exact mode4ExitGo_evals step ec T nmax nmax 1 _ (t, y)
  · exact mode4ExitGo_fired step ec T nmax nmax 1 _ (t, y)
  · exact mode4ExitGo_tail step ec T nmax nmax 1 _ (t, y)

/-- Witness for C4 at concrete inputs: max_steps = 3, track_interval = 2,
counting advance operation, exit condition satisfied from the fourth step
on; it fires at the second tracked sample. -/
theorem iterator_everyN_exit_discipline_witness :
    2 ≤ 2
    ∧ ((∃ m, [((0 : ℚ), (2 : ℤ)), (0, 4)] = evalSchedule cstep 2 (0, 0) m)
      ∧ ((∃ e ∈ [((0 : ℚ), (2 : ℤ)), (0, 4)], ecGe4 e.1 e.2 = true) →
          false = false
          ∧ 4 = [((0 : ℚ), (2 : ℤ)), (0, 4)].length * 2
          ∧ (∀ e ∈ [((0 : ℚ), (2 : ℤ)), (0, 4)].dropLast, ecGe4 e.1 e.2 = false)
          ∧ (∃ e, [((0 : ℚ), (2 : ℤ)), (0, 4)].getLast? = some e
              ∧ ecGe4 e.1 e.2 = true)
          ∧ (∃ l, (Except.ok (IterResult.traj
                [some ((0 : ℚ), (0 : ℤ)), some (0, 2), some (0, 4)])
              : Except PyErr (IterResult ℤ)) = Except.ok (IterResult.traj l)))
      ∧ (false = true ↔
          ([((0 : ℚ), (2 : ℤ)), (0, 4)].length = 3
            ∧ ∀ e ∈ [((0 : ℚ), (2 : ℤ)), (0, 4)], ecGe4 e.1 e.2 = false))) :=
  ⟨by omega,
    iterator_everyN_exit_discipline cstep ecGe4 0 0 3 2 (by omega)
      (Except.ok (IterResult.traj [some (0, 0), some (0, 2), some (0, 4)]))
      ⟨4, [(0, 2), (0, 4)], false⟩ rfl⟩
